import Mathlib

/-!
Shallow embedding of `arch/x86/kernel/cpu/sgx/virt.c` (the virtual EPC
region manager): the per-region sparse page table (an xarray), the page
fault path, the debug access path, mmap validation, and the three-pass
release protocol with the process-wide zombie page list.

External collaborators are modelled as explicit oracles or inputs:
`__eremove` results, `__edbgrd`/`__edbgwr` failures, `sgx_alloc_epc_page`
outcomes, `vmf_insert_pfn` results.  Physical page handles
(`struct sgx_epc_page *`) are abstracted as ids; ghost lists record which
pages were allocated and freed so that resource claims are statable.
-/

/-- PAGE_SIZE on x86-64. -/
def PAGE_SIZE : Nat := 4096

/-- Physical EPC page handle (`struct sgx_epc_page *`), abstracted as an id. -/
abbrev PageId := Nat

/-- -EIO, the error returned by the debug access path. -/
def EIO_ERR : Int := -5

/-- -EINVAL, returned by mmap validation. -/
def EINVAL_ERR : Int := -22

/-- -EFAULT, returned when vmf_insert_pfn fails in the fault path. -/
def EFAULT_ERR : Int := -14

/-- -EBUSY, the inner fault result that triggers VM_FAULT_RETRY. -/
def EBUSY_ERR : Int := -16

/-- -ENOMEM, a typical sgx_alloc_epc_page / xa_store failure code. -/
def ENOMEM_ERR : Int := -12

def VM_FAULT_NOPAGE : Nat := 256

def VM_FAULT_RETRY : Nat := 1024

def VM_FAULT_SIGBUS : Nat := 2

/-! ## xarray model: the per-region sparse index table (`epc->page_array`)

The table is an association list from page index to page handle; `xa_load`,
`xa_store` (successful case) and `xa_erase` are lookup, replace-or-insert
and removal.  `xa_for_each` is iteration over the list. -/

/-- xa_load: look up the entry at an index. -/
def xaLoad (t : List (Nat × PageId)) (i : Nat) : Option PageId :=
  match t.find? (fun e => e.1 == i) with
  | some e => some e.2
  | none => none

/-- xa_store, successful case: replace or insert the entry at an index. -/
def xaStore (t : List (Nat × PageId)) (i : Nat) (p : PageId) : List (Nat × PageId) :=
  (i, p) :: t.filter (fun e => e.1 != i)

/-- xa_erase: remove the entry at an index. -/
def xaErase (t : List (Nat × PageId)) (i : Nat) : List (Nat × PageId) :=
  t.filter (fun e => e.1 != i)

/-- sgx_virt_epc_calc_index: `vma->vm_pgoff + PFN_DOWN(addr - vma->vm_start)`. -/
def sgx_virt_epc_calc_index (vm_pgoff vm_start addr : Nat) : Nat :=
  vm_pgoff + (addr - vm_start) / PAGE_SIZE

/-! ## Fault path (`__sgx_virt_epc_fault` and `sgx_virt_epc_fault`) -/

/-- Environment of one `__sgx_virt_epc_fault` call: the vma geometry and the
outcomes of the external calls made on the allocation path.
`alloc` is the `sgx_alloc_epc_page` outcome (`.error e` models `ERR_PTR(e)`),
`storeErr` is `xa_err(xa_store ...)` (0 on success), `insert` is the
`vmf_insert_pfn` result, and `phys` is `sgx_get_epc_phys_addr`. -/
structure FaultEnv where
  vm_pgoff : Nat
  vm_start : Nat
  alloc : Except Int PageId
  storeErr : Int
  insert : Nat
  phys : PageId → Nat

/-- Result of one `__sgx_virt_epc_fault` call: the return value, the table
afterwards, and ghost logs of the pages allocated and freed during the call
and of the (addr, pfn) translations successfully installed. -/
structure FaultOutcome where
  ret : Int
  table : List (Nat × PageId)
  allocated : List PageId
  freed : List PageId
  installed : List (Nat × Nat)
deriving DecidableEq, Repr

/-- `__sgx_virt_epc_fault`: resolve one fault under the region lock.
If the index is already populated, succeed with no side effect; otherwise
allocate, store, and install, undoing on each failure exactly as the
`err_delete`/`err_free` labels do. -/
def __sgx_virt_epc_fault (env : FaultEnv) (table : List (Nat × PageId))
    (addr : Nat) : FaultOutcome :=
  let index := sgx_virt_epc_calc_index env.vm_pgoff env.vm_start addr
  match xaLoad table index with
  | some _ => ⟨0, table, [], [], []⟩
  | none =>
    match env.alloc with
    | .error e => ⟨e, table, [], [], []⟩
    | .ok page =>
      if env.storeErr ≠ 0 then
        -- goto err_free: sgx_free_epc_page(epc_page)
        ⟨env.storeErr, table, [page], [page], []⟩
      else
        let table' := xaStore table index page
        if env.insert ≠ VM_FAULT_NOPAGE then
          -- goto err_delete: xa_erase, then sgx_free_epc_page
          ⟨EFAULT_ERR, xaErase table' index, [page], [page], []⟩
        else
          ⟨0, table', [page], [], [(addr, env.phys page / PAGE_SIZE)]⟩

/-- `sgx_virt_epc_fault`: the vm_ops fault callback.  Runs the inner fault
under the lock, then maps its result to a vm_fault_t, short-circuiting to
VM_FAULT_NOPAGE when a signal is pending. -/
def sgx_virt_epc_fault (env : FaultEnv) (table : List (Nat × PageId))
    (addr : Nat) (signalPending allowRetry : Bool) : Nat × FaultOutcome :=
  let o := __sgx_virt_epc_fault env table addr
  if o.ret = 0 ∨ signalPending = true then (VM_FAULT_NOPAGE, o)
  else if o.ret = EBUSY_ERR ∧ allowRetry = true then (VM_FAULT_RETRY, o)
  else (VM_FAULT_SIGBUS, o)

/-! ## mmap path (`sgx_virt_epc_mmap`) -/

/-- The vma flag bits this function reads or sets.  `shared` is VM_SHARED,
`pfnmap` is VM_PFNMAP (pageable purely by fault), `io` is VM_IO
(non-swappable), `dontdump` is VM_DONTDUMP (excluded from core dumps). -/
structure VmaFlags where
  shared : Bool
  pfnmap : Bool
  io : Bool
  dontdump : Bool
deriving DecidableEq, Repr

/-- The vma fields touched by `sgx_virt_epc_mmap`.  `vm_mm` is the id of the
requesting address space, `ops_set` models `vma->vm_ops = &sgx_virt_epc_vm_ops`,
and `private_data` tags the vma with the backing region's id. -/
structure MmapVma where
  flags : VmaFlags
  vm_mm : Nat
  ops_set : Bool
  private_data : Option Nat
deriving DecidableEq, Repr

/-- `sgx_virt_epc_mmap`: reject non-shared mappings and foreign address
spaces with -EINVAL; otherwise install the vm_ops, set
VM_PFNMAP | VM_IO | VM_DONTDUMP, and tag the vma with the region. -/
def sgx_virt_epc_mmap (epc_mm : Nat) (epc_id : Nat) (vma : MmapVma) :
    Except Int MmapVma :=
  if vma.flags.shared = false then .error EINVAL_ERR
  else if vma.vm_mm ≠ epc_mm then .error EINVAL_ERR
  else .ok { vma with
             flags := { vma.flags with pfnmap := true, io := true, dontdump := true },
             ops_set := true,
             private_data := some epc_id }

/-! ## Release protocol (`sgx_virt_epc_free_page` and `sgx_virt_epc_release`)

`__eremove` is external; its result for the k-th removal attempt of the call
on page p is given by an oracle `er : Nat → PageId → Int` (0 = success).
A ghost list records the pages handed back to the free list. -/

/-- Result of `sgx_virt_epc_free_page`: the returned code and the ghost list
of pages given back via `__sgx_free_epc_page` (empty or a singleton). -/
structure FreeResult where
  ret : Int
  freed : List PageId
deriving DecidableEq, Repr

/-- `sgx_virt_epc_free_page`: NULL pages succeed trivially; otherwise the
page is freed exactly when `__eremove` (whose result is the argument `r`)
returned 0, and any nonzero result is returned to the caller with the page
retained. -/
def sgx_virt_epc_free_page (r : Int) : Option PageId → FreeResult
  | none => ⟨0, []⟩
  | some p => if r ≠ 0 then ⟨r, []⟩ else ⟨0, [p]⟩

/-- Pass 1 of the release protocol: `xa_for_each` over the table; on a failed
removal `continue` (the entry stays, iteration moves on), on success
`xa_erase` the entry (the page was freed by the helper).
Returns (remaining table, freed pages, next oracle counter). -/
def pass1 (er : Nat → PageId → Int) :
    List (Nat × PageId) → Nat → List (Nat × PageId) × List PageId × Nat
  | [], k => ([], [], k)
  | (i, p) :: rest, k =>
    let fr := sgx_virt_epc_free_page (er k p) (some p)
    let r := pass1 er rest (k + 1)
    if fr.ret ≠ 0 then ((i, p) :: r.1, r.2.1, r.2.2)
    else (r.1, fr.freed ++ r.2.1, r.2.2)

/-- Pass 2: `xa_for_each` over the table that survived pass 1; every entry is
erased, and a page whose removal fails again is put on the local
`secs_pages` list instead of being freed.
Returns (freed pages, secs_pages, next oracle counter). -/
def pass2 (er : Nat → PageId → Int) :
    List (Nat × PageId) → Nat → List PageId × List PageId × Nat
  | [], k => ([], [], k)
  | (_, p) :: rest, k =>
    let fr := sgx_virt_epc_free_page (er k p) (some p)
    let r := pass2 er rest (k + 1)
    if fr.ret ≠ 0 then (r.1, p :: r.2.1, r.2.2)
    else (fr.freed ++ r.1, r.2.1, r.2.2)

/-- Pass 3: under `virt_epc_lock`, walk the zombie list; each entry is
speculatively removed (`list_del`), freed on successful removal, and put on
the local `secs_pages` list otherwise.
Returns (freed pages, pages added to secs_pages, next oracle counter). -/
def pass3 (er : Nat → PageId → Int) :
    List PageId → Nat → List PageId × List PageId × Nat
  | [], k => ([], [], k)
  | p :: rest, k =>
    let fr := sgx_virt_epc_free_page (er k p) (some p)
    let r := pass3 er rest (k + 1)
    if fr.ret ≠ 0 then (r.1, p :: r.2.1, r.2.2)
    else (fr.freed ++ r.1, r.2.1, r.2.2)

/-- Final state of one `sgx_virt_epc_release` call: the zombie registry after
the splice, and the ghost list of all pages freed during the call.  (The
region's table is empty afterwards: pass 2 erased every entry, and the
region itself is kfreed.) -/
structure ReleaseResult where
  zombies : List PageId
  freed : List PageId
deriving DecidableEq, Repr

/-! ## Debug access path (`sgx_virt_epc_access`)

EDBGRD/EDBGWR operate on naturally aligned 8-byte words.  EPC memory is
modelled as an association list from (page handle, word-aligned offset
within the page) to the word's 8 bytes, most recent write first; a word
never written reads as zero bytes.  The x86-64 machine is little-endian, so
byte j of a word is the coefficient of 256^j of its integer value. -/

/-- EPC word memory: (page, aligned in-page offset) to the 8 bytes stored. -/
abbrev Mem := List ((Nat × Nat) × List Nat)

/-- Read the 8-byte word at a location (zero bytes when never written). -/
def memRead (m : Mem) (key : Nat × Nat) : List Nat :=
  match m.find? (fun e => e.1 == key) with
  | some e => e.2
  | none => List.replicate 8 0

/-- Write the 8-byte word at a location. -/
def memWrite (m : Mem) (key : Nat × Nat) (w : List Nat) : Mem :=
  (key, w) :: m

/-- `memcpy(data + offset, src, src.length)` on an 8-byte scratch buffer:
overlay `src` onto `w` starting at byte `off`. -/
def overlayBytes (w : List Nat) (off : Nat) (src : List Nat) : List Nat :=
  w.take off ++ src ++ w.drop (off + src.length)

/-- Little-endian integer value of a byte list (x86-64 memory order). -/
def wordToNat : List Nat → Nat
  | [] => 0
  | b :: rest => b + 256 * wordToNat rest

/-- Environment of one `sgx_virt_epc_access` call: vma geometry, the
region's table, and failure oracles for `__edbgrd` / `__edbgwr` at a given
(page, aligned in-page offset) location. -/
structure AccessEnv where
  vm_pgoff : Nat
  vm_start : Nat
  table : List (Nat × PageId)
  rdFail : PageId → Nat → Bool
  wrFail : PageId → Nat → Bool

/-- Result of one `sgx_virt_epc_access` call: the returned int (-EIO or the
byte count), the caller's buffer (updated by reads) and the EPC memory
(updated by writes). -/
structure AccessResult where
  ret : Int
  buf : List Nat
  mem : Mem
deriving DecidableEq, Repr

/-- The loop of `sgx_virt_epc_access`.  `i` is the byte cursor, `cntPrev`
the previous chunk's size (the C `cnt` read before being rewritten),
`index` the cached page index, `data` the 8-byte scratch buffer that lives
across iterations.  `fuel` bounds the recursion; each iteration consumes
one unit and advances `i` by at least one, so `fuel = len` suffices and the
fuel-exhausted case coincides with the loop's own exit. -/
def accessLoop (env : AccessEnv) (start len : Nat) (write : Bool) :
    Nat → Nat → Nat → Nat → List Nat → Mem → List Nat → AccessResult
  | 0, i, _, _, buf, mem, _ => ⟨(i : Int), buf, mem⟩
  | fuel + 1, i, cntPrev, index, buf, mem, data =>
    if i < len then
      let addr := start + i
      let index' :=
        if i = 0 ∨ addr / PAGE_SIZE ≠ (addr - cntPrev) / PAGE_SIZE then
          sgx_virt_epc_calc_index env.vm_pgoff env.vm_start addr
        else index
      match xaLoad env.table index' with
      | none => ⟨EIO_ERR, buf, mem⟩
      | some pg =>
        let offset := addr % 8
        let cnt := min (8 - offset) (len - i)
        let inPage := (addr - offset) % PAGE_SIZE
        let key : Nat × Nat := (pg, inPage)
        -- EDBGRD for read, or to do RMW for a sub-word write
        if (write = false ∨ cnt ≠ 8) ∧ env.rdFail pg inPage = true then
          ⟨EIO_ERR, buf, mem⟩
        else
          let data' := if write = false ∨ cnt ≠ 8 then memRead mem key else data
          if write = true then
            let data'' := overlayBytes data' offset ((buf.drop i).take cnt)
            if env.wrFail pg inPage = true then ⟨EIO_ERR, buf, mem⟩
            else accessLoop env start len write fuel (i + cnt) cnt index' buf
                   (memWrite mem key data'') data''
          else
            let buf' := buf.take i ++ (data'.drop offset).take cnt ++ buf.drop (i + cnt)
            accessLoop env start len write fuel (i + cnt) cnt index' buf' mem data'
    else ⟨(i : Int), buf, mem⟩

/-- `sgx_virt_epc_access`: process `[start, start + len)` in word chunks;
returns -EIO if the table has no entry for a touched index or a debug
instruction fails, and the processed byte count otherwise. -/
def sgx_virt_epc_access (env : AccessEnv) (start len : Nat) (write : Bool)
    (buf : List Nat) (mem : Mem) : AccessResult :=
  accessLoop env start len write len 0 0 0 buf mem (List.replicate 8 0)

/-- `sgx_virt_epc_release`: pass 1 over the table, pass 2 over what is left,
pass 3 over the zombie registry as found when `virt_epc_lock` was taken;
finally the local `secs_pages` list (pass-2 leftovers then pass-3 leftovers)
is spliced onto the tail of the now-empty registry. -/
def sgx_virt_epc_release (er : Nat → PageId → Int)
    (table : List (Nat × PageId)) (zombies : List PageId) : ReleaseResult :=
  let r1 := pass1 er table 0
  let r2 := pass2 er r1.1 r1.2.2
  let r3 := pass3 er zombies r2.2.2
  ⟨r2.2.1 ++ r3.2.1, r1.2.1 ++ (r2.1 ++ r3.1)⟩

/-! ## Helper lemmas -/

theorem free_page_fail {r : Int} (p : PageId) (h : r ≠ 0) :
    sgx_virt_epc_free_page r (some p) = ⟨r, []⟩ := by
  simp [sgx_virt_epc_free_page, h]

theorem free_page_ok (p : PageId) :
    sgx_virt_epc_free_page 0 (some p) = ⟨0, [p]⟩ := by
  simp [sgx_virt_epc_free_page]

theorem xaLoad_keys_ne {t : List (Nat × PageId)} {i : Nat}
    (h : xaLoad t i = none) : ∀ e ∈ t, e.1 ≠ i := by
  intro e he
  unfold xaLoad at h
  cases hf : t.find? (fun e => e.1 == i) with
  | some e' => rw [hf] at h; simp at h
  | none =>
    have := List.find?_eq_none.mp hf e he
    simpa using this

theorem xaLoad_xaStore_self (t : List (Nat × PageId)) (i : Nat) (p : PageId) :
    xaLoad (xaStore t i p) i = some p := by
  unfold xaLoad xaStore
  rw [List.find?_cons_of_pos _ (by simp)]

theorem xaErase_xaStore_cancel {t : List (Nat × PageId)} {i : Nat} (p : PageId)
    (h : xaLoad t i = none) : xaErase (xaStore t i p) i = t := by
  unfold xaErase xaStore
  rw [List.filter_cons_of_neg (by simp), List.filter_filter]
  rw [List.filter_eq_self.mpr]
  intro e he
  have := xaLoad_keys_ne h e he
  simp [this]

theorem pass1_perm (er : Nat → PageId → Int) (t : List (Nat × PageId)) (k : Nat) :
    ((pass1 er t k).2.1 ++ (pass1 er t k).1.map Prod.snd).Perm (t.map Prod.snd) := by
  induction t generalizing k with
  | nil => simp [pass1]
  | cons e rest ih =>
    obtain ⟨i, p⟩ := e
    by_cases h : er k p = 0
    · rw [show pass1 er ((i, p) :: rest) k =
          ((pass1 er rest (k + 1)).1,
           [p] ++ (pass1 er rest (k + 1)).2.1,
           (pass1 er rest (k + 1)).2.2) by
        simp [pass1, h, free_page_ok]]
      simpa using (ih (k + 1)).cons p
    · rw [show pass1 er ((i, p) :: rest) k =
          ((i, p) :: (pass1 er rest (k + 1)).1,
           (pass1 er rest (k + 1)).2.1,
           (pass1 er rest (k + 1)).2.2) by
        simp [pass1, free_page_fail p h, h]]
      simp only [List.map_cons]
      exact List.perm_middle.trans ((ih (k + 1)).cons p)

theorem pass2_perm (er : Nat → PageId → Int) (t : List (Nat × PageId)) (k : Nat) :
    ((pass2 er t k).1 ++ (pass2 er t k).2.1).Perm (t.map Prod.snd) := by
  induction t generalizing k with
  | nil => simp [pass2]
  | cons e rest ih =>
    obtain ⟨i, p⟩ := e
    by_cases h : er k p = 0
    · rw [show pass2 er ((i, p) :: rest) k =
          ([p] ++ (pass2 er rest (k + 1)).1,
           (pass2 er rest (k + 1)).2.1,
           (pass2 er rest (k + 1)).2.2) by
        simp [pass2, h, free_page_ok]]
      simpa using (ih (k + 1)).cons p
    · rw [show pass2 er ((i, p) :: rest) k =
          ((pass2 er rest (k + 1)).1,
           p :: (pass2 er rest (k + 1)).2.1,
           (pass2 er rest (k + 1)).2.2) by
        simp [pass2, free_page_fail p h, h]]
      simp only [List.map_cons]
      exact List.perm_middle.trans ((ih (k + 1)).cons p)

theorem pass3_perm (er : Nat → PageId → Int) (z : List PageId) (k : Nat) :
    ((pass3 er z k).1 ++ (pass3 er z k).2.1).Perm z := by
  induction z generalizing k with
  | nil => simp [pass3]
  | cons p rest ih =>
    by_cases h : er k p = 0
    · rw [show pass3 er (p :: rest) k =
          ([p] ++ (pass3 er rest (k + 1)).1,
           (pass3 er rest (k + 1)).2.1,
           (pass3 er rest (k + 1)).2.2) by
        simp [pass3, h, free_page_ok]]
      simpa using (ih (k + 1)).cons p
    · rw [show pass3 er (p :: rest) k =
          ((pass3 er rest (k + 1)).1,
           p :: (pass3 er rest (k + 1)).2.1,
           (pass3 er rest (k + 1)).2.2) by
        simp [pass3, free_page_fail p h, h]]
      exact List.perm_middle.trans ((ih (k + 1)).cons p)

theorem release_perm (er : Nat → PageId → Int) (table : List (Nat × PageId))
    (zombies : List PageId) :
    ((sgx_virt_epc_release er table zombies).freed ++
      (sgx_virt_epc_release er table zombies).zombies).Perm
      (table.map Prod.snd ++ zombies) := by
  have h1 := pass1_perm er table 0
  have h2 := pass2_perm er (pass1 er table 0).1 (pass1 er table 0).2.2
  have h3 := pass3_perm er zombies
    (pass2 er (pass1 er table 0).1 (pass1 er table 0).2.2).2.2
  rw [← Multiset.coe_eq_coe] at h1 h2 h3 ⊢
  simp only [sgx_virt_epc_release]
  simp only [← Multiset.coe_add] at h1 h2 h3 ⊢
  rw [← h1, ← h2, ← h3]
  abel

theorem fault_present_noop {env : FaultEnv} {table : List (Nat × PageId)}
    {addr : Nat} {p : PageId}
    (hp : xaLoad table (sgx_virt_epc_calc_index env.vm_pgoff env.vm_start addr) = some p) :
    __sgx_virt_epc_fault env table addr = ⟨0, table, [], [], []⟩ := by
  simp only [__sgx_virt_epc_fault]
  rw [hp]

theorem fault_success_present {env : FaultEnv} {table : List (Nat × PageId)}
    {addr : Nat}
    (herr : ∀ e, env.alloc = Except.error e → e ≠ 0)
    (h0 : (__sgx_virt_epc_fault env table addr).ret = 0) :
    ∃ q, xaLoad (__sgx_virt_epc_fault env table addr).table
      (sgx_virt_epc_calc_index env.vm_pgoff env.vm_start addr) = some q := by
  cases hl : xaLoad table (sgx_virt_epc_calc_index env.vm_pgoff env.vm_start addr) with
  | some q =>
    rw [fault_present_noop hl]
    exact ⟨q, hl⟩
  | none =>
    cases ha : env.alloc with
    | error e =>
      exfalso
      apply herr e ha
      rw [← h0]
      simp only [__sgx_virt_epc_fault]
      rw [hl, ha]
    | ok page =>
      by_cases hs : env.storeErr = 0
      · by_cases hi : env.insert = VM_FAULT_NOPAGE
        · refine ⟨page, ?_⟩
          have : __sgx_virt_epc_fault env table addr =
              ⟨0, xaStore table (sgx_virt_epc_calc_index env.vm_pgoff env.vm_start addr) page,
               [page], [], [(addr, env.phys page / PAGE_SIZE)]⟩ := by
            simp only [__sgx_virt_epc_fault]
            rw [hl, ha]
            simp [hs, hi]
          rw [this]
          exact xaLoad_xaStore_self _ _ _
        · exfalso
          have : (__sgx_virt_epc_fault env table addr).ret = EFAULT_ERR := by
            simp only [__sgx_virt_epc_fault]
            rw [hl, ha]
            simp [hs, hi]
          rw [h0] at this
          simp [EFAULT_ERR] at this
      · exfalso
        apply hs
        rw [← h0]
        simp only [__sgx_virt_epc_fault]
        rw [hl, ha]
        simp [hs]

/-- Claim C4: a fault on an index whose table entry is already present
returns success performing no allocation, no table change (hence no store)
and no installation; and after any successful fault, a repeated fault
resolving to the same index (same vma geometry, arbitrary fresh oracles) is
such a no-op, so at most one page is ever installed for a fixed index. -/
theorem sgx_virt_epc_fault_resolved_idempotent
    (env env2 : FaultEnv) (table : List (Nat × PageId)) (addr addr2 : Nat)
    (p : PageId)
    (herr : ∀ e, env.alloc = Except.error e → e ≠ 0)
    (hgeom : sgx_virt_epc_calc_index env2.vm_pgoff env2.vm_start addr2 =
             sgx_virt_epc_calc_index env.vm_pgoff env.vm_start addr) :
    (xaLoad table (sgx_virt_epc_calc_index env.vm_pgoff env.vm_start addr) = some p →
       __sgx_virt_epc_fault env table addr = ⟨0, table, [], [], []⟩) ∧
    ((__sgx_virt_epc_fault env table addr).ret = 0 →
       __sgx_virt_epc_fault env2 (__sgx_virt_epc_fault env table addr).table addr2 =
         ⟨0, (__sgx_virt_epc_fault env table addr).table, [], [], []⟩) := by
  constructor
  · intro hp
    exact fault_present_noop hp
  · intro h0
    obtain ⟨q, hq⟩ := fault_success_present herr h0
    rw [← hgeom] at hq
    exact fault_present_noop hq

/-- Witness for C4 at a concrete input: entry 9 is present at index 0, the
fault is a no-op, and a successful fresh fault at index 0 of the empty table
makes the repeated fault a no-op as well. -/
theorem sgx_virt_epc_fault_resolved_idempotent_witness :
    (∀ e, (FaultEnv.mk 0 0 (Except.ok 5) 0 VM_FAULT_NOPAGE (fun _ => 8192)).alloc =
        Except.error e → e ≠ 0) ∧
    (xaLoad [(0, 9)] (sgx_virt_epc_calc_index 0 0 0) = some 9 →
       __sgx_virt_epc_fault ⟨0, 0, Except.ok 5, 0, VM_FAULT_NOPAGE, fun _ => 8192⟩
         [(0, 9)] 0 = ⟨0, [(0, 9)], [], [], []⟩) ∧
    ((__sgx_virt_epc_fault ⟨0, 0, Except.ok 5, 0, VM_FAULT_NOPAGE, fun _ => 8192⟩
         [(0, 9)] 0).ret = 0 →
       __sgx_virt_epc_fault ⟨0, 0, Except.ok 5, 0, VM_FAULT_NOPAGE, fun _ => 8192⟩
         (__sgx_virt_epc_fault ⟨0, 0, Except.ok 5, 0, VM_FAULT_NOPAGE, fun _ => 8192⟩
           [(0, 9)] 0).table 0 =
         ⟨0, (__sgx_virt_epc_fault ⟨0, 0, Except.ok 5, 0, VM_FAULT_NOPAGE, fun _ => 8192⟩
           [(0, 9)] 0).table, [], [], []⟩) :=
  ⟨fun _ he => Except.noConfusion he,
   (sgx_virt_epc_fault_resolved_idempotent
      ⟨0, 0, Except.ok 5, 0, VM_FAULT_NOPAGE, fun _ => 8192⟩
      ⟨0, 0, Except.ok 5, 0, VM_FAULT_NOPAGE, fun _ => 8192⟩ [(0, 9)] 0 0 9
      (fun _ he => Except.noConfusion he) rfl).1,
   (sgx_virt_epc_fault_resolved_idempotent
      ⟨0, 0, Except.ok 5, 0, VM_FAULT_NOPAGE, fun _ => 8192⟩
      ⟨0, 0, Except.ok 5, 0, VM_FAULT_NOPAGE, fun _ => 8192⟩ [(0, 9)] 0 0 9
      (fun _ he => Except.noConfusion he) rfl).2⟩

/-- Claim C5: on an absent index, if the store fails the fresh page is freed
and the store error is returned, and if the install fails the stored entry
is erased, the page is freed, and -EFAULT is returned; in both cases the
table afterwards is exactly the table before (no entry at the index). -/
theorem sgx_virt_epc_fault_error_unwind
    (env : FaultEnv) (table : List (Nat × PageId)) (addr : Nat) (page : PageId)
    (habs : xaLoad table (sgx_virt_epc_calc_index env.vm_pgoff env.vm_start addr) = none)
    (halloc : env.alloc = Except.ok page) :
    (env.storeErr ≠ 0 →
       __sgx_virt_epc_fault env table addr = ⟨env.storeErr, table, [page], [page], []⟩) ∧
    (env.storeErr = 0 → env.insert ≠ VM_FAULT_NOPAGE →
       __sgx_virt_epc_fault env table addr = ⟨EFAULT_ERR, table, [page], [page], []⟩) := by
  constructor
  · intro hs
    simp only [__sgx_virt_epc_fault]
    rw [habs, halloc]
    simp [hs]
  · intro hs hi
    simp only [__sgx_virt_epc_fault]
    rw [habs, halloc]
    simp [hs, hi, xaErase_xaStore_cancel page habs]

/-- Witness for C5 at concrete inputs: a failing store (-ENOMEM) and a
failing install both roll the empty table back to itself and free page 5. -/
theorem sgx_virt_epc_fault_error_unwind_witness :
    xaLoad [] (sgx_virt_epc_calc_index 0 0 0) = none ∧
    ((-12 : Int) ≠ 0 →
      __sgx_virt_epc_fault ⟨0, 0, Except.ok 5, -12, VM_FAULT_NOPAGE, fun _ => 0⟩ [] 0 =
        ⟨-12, [], [5], [5], []⟩) ∧
    ((2 : Nat) ≠ VM_FAULT_NOPAGE →
      __sgx_virt_epc_fault ⟨0, 0, Except.ok 5, 0, 2, fun _ => 0⟩ [] 0 =
        ⟨EFAULT_ERR, [], [5], [5], []⟩) :=
  ⟨rfl,
   fun h => ((sgx_virt_epc_fault_error_unwind
      ⟨0, 0, Except.ok 5, -12, VM_FAULT_NOPAGE, fun _ => 0⟩ [] 0 5 rfl rfl).1 h),
   fun h => ((sgx_virt_epc_fault_error_unwind
      ⟨0, 0, Except.ok 5, 0, 2, fun _ => 0⟩ [] 0 5 rfl rfl).2 rfl h)⟩

/-- Claim C9: whenever a signal is pending on the faulting thread, the fault
callback reports VM_FAULT_NOPAGE (resolved, no error and no page outcome)
whatever the inner fault resolution returned, including allocation errors. -/
theorem sgx_virt_epc_fault_signal_pending_nopage
    (env : FaultEnv) (table : List (Nat × PageId)) (addr : Nat) (allowRetry : Bool) :
    (sgx_virt_epc_fault env table addr true allowRetry).1 = VM_FAULT_NOPAGE := by
  simp [sgx_virt_epc_fault]

/-- Claim C8: mmap is rejected with -EINVAL exactly when the mapping is not
shared or the caller's address space is not the region's owner; on success
the vma gets VM_PFNMAP (pageable by fault), VM_IO (non-swappable),
VM_DONTDUMP (dump-excluded), the vm_ops, and the region as backing object. -/
theorem sgx_virt_epc_mmap_spec (epc_mm epc_id : Nat) (vma : MmapVma) :
    (sgx_virt_epc_mmap epc_mm epc_id vma = .error EINVAL_ERR ↔
      (vma.flags.shared = false ∨ vma.vm_mm ≠ epc_mm)) ∧
    (vma.flags.shared = true → vma.vm_mm = epc_mm →
      sgx_virt_epc_mmap epc_mm epc_id vma = .ok
        { vma with
          flags := { vma.flags with pfnmap := true, io := true, dontdump := true },
          ops_set := true, private_data := some epc_id }) := by
  refine ⟨⟨?_, ?_⟩, ?_⟩
  · intro h
    by_cases h1 : vma.flags.shared = false
    · exact Or.inl h1
    · by_cases h2 : vma.vm_mm = epc_mm
      · exfalso
        simp only [sgx_virt_epc_mmap, if_neg h1,
          if_neg (show ¬vma.vm_mm ≠ epc_mm from fun hc => hc h2)] at h
        exact Except.noConfusion h
      · exact Or.inr h2
  · intro h
    simp only [sgx_virt_epc_mmap]
    rcases h with h1 | h2
    · rw [if_pos h1]
    · by_cases h1 : vma.flags.shared = false
      · rw [if_pos h1]
      · rw [if_neg h1, if_pos h2]
  · intro hsh hmm
    simp only [sgx_virt_epc_mmap]
    rw [if_neg (by simp [hsh]), if_neg (show ¬vma.vm_mm ≠ epc_mm from fun hc => hc hmm)]

/-- Witness for C8 at a concrete input: a shared mapping from the owning
address space is accepted and the flags and backing tag are set. -/
theorem sgx_virt_epc_mmap_spec_witness :
    ((true : Bool) = true) ∧ ((7 : Nat) = 7) ∧
    sgx_virt_epc_mmap 7 42 ⟨⟨true, false, false, false⟩, 7, false, none⟩ =
      .ok ⟨⟨true, true, true, true⟩, 7, true, some 42⟩ :=
  ⟨rfl, rfl,
   (sgx_virt_epc_mmap_spec 7 42 ⟨⟨true, false, false, false⟩, 7, false, none⟩).2 rfl rfl⟩

/-- Claim C1: after a release call, every page that was in the region's
table at the start or in the zombie registry when the global lock was taken
is in exactly one of the states freed / pending in the registry (given the
ownership invariant that all handles are distinct); in particular every
registry entry speculatively removed during pass 3 is freed or re-inserted
before the lock is released.  No handle is dropped untracked. -/
theorem sgx_virt_epc_release_page_partition
    (er : Nat → PageId → Int) (table : List (Nat × PageId)) (zombies : List PageId)
    (p q : PageId)
    (hnodup : (table.map Prod.snd ++ zombies).Nodup)
    (hp : p ∈ table.map Prod.snd ++ zombies)
    (hq : q ∈ zombies) :
    ((p ∈ (sgx_virt_epc_release er table zombies).freed ∧
      p ∉ (sgx_virt_epc_release er table zombies).zombies) ∨
     (p ∉ (sgx_virt_epc_release er table zombies).freed ∧
      p ∈ (sgx_virt_epc_release er table zombies).zombies)) ∧
    (q ∈ (sgx_virt_epc_release er table zombies).freed ∨
     q ∈ (sgx_virt_epc_release er table zombies).zombies) := by
  have hperm := release_perm er table zombies
  have hnd : ((sgx_virt_epc_release er table zombies).freed ++
      (sgx_virt_epc_release er table zombies).zombies).Nodup :=
    hperm.nodup_iff.mpr hnodup
  rw [List.nodup_append] at hnd
  obtain ⟨-, -, hdisj⟩ := hnd
  constructor
  · have hpmem := hperm.mem_iff.mpr hp
    rcases List.mem_append.mp hpmem with h | h
    · exact Or.inl ⟨h, fun hz => hdisj h hz⟩
    · exact Or.inr ⟨fun hf => hdisj hf h, h⟩
  · have hqmem := hperm.mem_iff.mpr (List.mem_append.mpr (Or.inr hq))
    exact List.mem_append.mp hqmem

/-- Witness for C1 at a concrete input: page 1 can never be removed, pages 2
and 3 can; after the release, 1 sits in the registry and only there, and the
old registry entry 3 was freed. -/
theorem sgx_virt_epc_release_page_partition_witness :
    ([(0, 1), (1, 2)].map Prod.snd ++ [3]).Nodup ∧
    1 ∈ [(0, 1), (1, 2)].map Prod.snd ++ [3] ∧
    3 ∈ [3] ∧
    (((1 ∈ (sgx_virt_epc_release (fun _ p => if p = 1 then 1 else 0)
          [(0, 1), (1, 2)] [3]).freed ∧
       1 ∉ (sgx_virt_epc_release (fun _ p => if p = 1 then 1 else 0)
          [(0, 1), (1, 2)] [3]).zombies) ∨
      (1 ∉ (sgx_virt_epc_release (fun _ p => if p = 1 then 1 else 0)
          [(0, 1), (1, 2)] [3]).freed ∧
       1 ∈ (sgx_virt_epc_release (fun _ p => if p = 1 then 1 else 0)
          [(0, 1), (1, 2)] [3]).zombies)) ∧
     (3 ∈ (sgx_virt_epc_release (fun _ p => if p = 1 then 1 else 0)
          [(0, 1), (1, 2)] [3]).freed ∨
      3 ∈ (sgx_virt_epc_release (fun _ p => if p = 1 then 1 else 0)
          [(0, 1), (1, 2)] [3]).zombies)) :=
  ⟨by decide, by decide, by decide,
   sgx_virt_epc_release_page_partition (fun _ p => if p = 1 then 1 else 0)
     [(0, 1), (1, 2)] [3] 1 3 (by decide) (by decide) (by decide)⟩

/-- Claim C10: the page-release helper frees the page only when the removal
primitive succeeded; any nonzero removal result — not only the
still-has-children code — is returned with the page retained, and in a
release call every initially tracked page that was not freed is in the
zombie registry afterwards (retained, never dropped). -/
theorem sgx_virt_epc_free_page_only_on_success
    (r : Int) (p p' : PageId) (er : Nat → PageId → Int)
    (table : List (Nat × PageId)) (zombies : List PageId)
    (hr : r ≠ 0)
    (hp' : p' ∈ table.map Prod.snd ++ zombies) :
    sgx_virt_epc_free_page r (some p) = ⟨r, []⟩ ∧
    sgx_virt_epc_free_page 0 (some p) = ⟨0, [p]⟩ ∧
    sgx_virt_epc_free_page r none = ⟨0, []⟩ ∧
    (p' ∉ (sgx_virt_epc_release er table zombies).freed →
       p' ∈ (sgx_virt_epc_release er table zombies).zombies) := by
  refine ⟨free_page_fail p hr, free_page_ok p, rfl, ?_⟩
  intro hnf
  have hperm := release_perm er table zombies
  have hpmem := hperm.mem_iff.mpr hp'
  rcases List.mem_append.mp hpmem with h | h
  · exact absurd h hnf
  · exact h

/-- Witness for C10 at a concrete input: removal result 13 retains page 5;
page 1, never removable, was not freed and ends in the registry. -/
theorem sgx_virt_epc_free_page_only_on_success_witness :
    (13 : Int) ≠ 0 ∧
    1 ∈ [(0, 1), (1, 2)].map Prod.snd ++ [3] ∧
    sgx_virt_epc_free_page 13 (some 5) = ⟨13, []⟩ ∧
    1 ∈ (sgx_virt_epc_release (fun _ p => if p = 1 then 1 else 0)
        [(0, 1), (1, 2)] [3]).zombies :=
  ⟨by decide, by decide,
   (sgx_virt_epc_free_page_only_on_success 13 5 1
      (fun _ p => if p = 1 then 1 else 0) [(0, 1), (1, 2)] [3]
      (by decide) (by decide)).1,
   (sgx_virt_epc_free_page_only_on_success 13 5 1
      (fun _ p => if p = 1 then 1 else 0) [(0, 1), (1, 2)] [3]
      (by decide) (by decide)).2.2.2 (by decide)⟩

/-- Claim C2 (amended): pass 1 visits every entry exactly once in order
(the oracle counter advances by the length of the table); the entries whose
removal failed — and only those — are left in the table, in order, and the
pages whose removal succeeded — and only those — are erased and freed. -/
theorem sgx_virt_epc_release_pass1_spec (er : Nat → PageId → Int)
    (t : List (Nat × PageId)) (k : Nat) :
    (pass1 er t k).1 = (List.enumFrom k t).filterMap
        (fun x => if er x.1 x.2.2 = 0 then none else some x.2) ∧
    (pass1 er t k).2.1 = (List.enumFrom k t).filterMap
        (fun x => if er x.1 x.2.2 = 0 then some x.2.2 else none) ∧
    (pass1 er t k).2.2 = k + t.length := by
  induction t generalizing k with
  | nil => simp [pass1]
  | cons e rest ih =>
    obtain ⟨i, p⟩ := e
    obtain ⟨ih1, ih2, ih3⟩ := ih (k + 1)
    by_cases h : er k p = 0
    · refine ⟨?_, ?_, ?_⟩
      · simp [pass1, h, free_page_ok, List.enumFrom, ih1]
      · simp [pass1, h, free_page_ok, List.enumFrom, ih2]
      · simp [pass1, h, free_page_ok, List.enumFrom, ih3]
        omega
    · refine ⟨?_, ?_, ?_⟩
      · simp [pass1, free_page_fail p h, h, List.enumFrom, ih1]
      · simp [pass1, free_page_fail p h, h, List.enumFrom, ih2]
      · simp [pass1, free_page_fail p h, h, List.enumFrom, ih3]
        omega

/-- Counterexample for C2 as stated: with a table whose first entry (page
10) always fails removal and whose second entry (page 11) succeeds, pass 1
still erases and frees page 11 — the iteration does advance past the failed
entry instead of stopping at it. -/
theorem sgx_virt_epc_release_pass1_advances_past_failure :
    (pass1 (fun _ p => if p = 10 then 1 else 0) [(0, 10), (1, 11)] 0).1 = [(0, 10)] ∧
    11 ∈ (pass1 (fun _ p => if p = 10 then 1 else 0) [(0, 10), (1, 11)] 0).2.1 ∧
    (pass1 (fun _ p => if p = 10 then 1 else 0) [(0, 10), (1, 11)] 0).1 ≠
      [(0, 10), (1, 11)] := by
  refine ⟨by decide, by decide, by decide⟩

theorem accessLoop_exit (env : AccessEnv) (start len : Nat) (write : Bool)
    (fuel i cntPrev index : Nat) (buf : List Nat) (mem : Mem) (data : List Nat)
    (h : ¬ i < len) :
    accessLoop env start len write fuel i cntPrev index buf mem data =
      ⟨(i : Int), buf, mem⟩ := by
  cases fuel <;> simp [accessLoop, h]

theorem accessLoop_ret_cases (env : AccessEnv) (start len : Nat) (write : Bool) :
    ∀ (fuel i cntPrev index : Nat) (buf : List Nat) (mem : Mem) (data : List Nat),
      i ≤ len → len ≤ i + fuel →
      (accessLoop env start len write fuel i cntPrev index buf mem data).ret = EIO_ERR ∨
      (accessLoop env start len write fuel i cntPrev index buf mem data).ret = (len : Int) := by
  intro fuel
  induction fuel with
  | zero =>
    intro i cntPrev index buf mem data h1 h2
    right
    simp only [accessLoop]
    have : i = len := by omega
    simp [this]
  | succ fuel ih =>
    intro i cntPrev index buf mem data h1 h2
    by_cases hi : i < len
    · have hoff : (start + i) % 8 < 8 := Nat.mod_lt _ (by norm_num)
      have hc1 : 1 ≤ min (8 - (start + i) % 8) (len - i) := by
        apply Nat.le_min.mpr
        constructor <;> omega
      have hc2 : min (8 - (start + i) % 8) (len - i) ≤ len - i :=
        Nat.min_le_right _ _
      simp only [accessLoop, if_pos hi]
      split
      · left; rfl
      · split
        · left; rfl
        · split
          · split
            · left; rfl
            · exact ih _ _ _ _ _ _ (by omega) (by omega)
          · exact ih _ _ _ _ _ _ (by omega) (by omega)
    · rw [accessLoop_exit env start len write _ _ _ _ _ _ _ hi]
      right
      have : i = len := by omega
      simp [this]

theorem memRead_memWrite_self (m : Mem) (key : Nat × Nat) (w : List Nat) :
    memRead (memWrite m key w) key = w := by
  simp [memRead, memWrite, List.find?_cons_of_pos]

theorem overlayBytes_outside (w src : List Nat) (off j : Nat)
    (hle : off + src.length ≤ w.length)
    (hj : j < off ∨ off + src.length ≤ j) :
    (overlayBytes w off src)[j]? = w[j]? := by
  have htk : (w.take off).length = off := by
    simp [List.length_take]
    omega
  unfold overlayBytes
  rcases hj with hj | hj
  · rw [List.getElem?_append_left (by simp [htk]; omega),
        List.getElem?_append_left (by omega),
        List.getElem?_take, if_pos hj]
  · rw [List.getElem?_append_right (by simp [htk]; omega),
        List.getElem?_drop]
    congr 1
    simp [htk]
    omega

theorem access_subword_write_eq (env : AccessEnv) (start len : Nat)
    (buf : List Nat) (mem : Mem) (pg : PageId)
    (hlen : 0 < len) (hfit : start % 8 + len ≤ 8) (hsub : len < 8)
    (hload : xaLoad env.table (sgx_virt_epc_calc_index env.vm_pgoff env.vm_start start) = some pg)
    (hrd : env.rdFail pg ((start - start % 8) % PAGE_SIZE) = false)
    (hwr : env.wrFail pg ((start - start % 8) % PAGE_SIZE) = false)
    (hbuf : buf.length = len) :
    sgx_virt_epc_access env start len true buf mem =
      ⟨(len : Int), buf,
       memWrite mem (pg, (start - start % 8) % PAGE_SIZE)
         (overlayBytes (memRead mem (pg, (start - start % 8) % PAGE_SIZE))
           (start % 8) buf)⟩ := by
  obtain ⟨m, rfl⟩ : ∃ m, len = m + 1 := ⟨len - 1, by omega⟩
  simp only [sgx_virt_epc_access, accessLoop, if_pos (Nat.succ_pos m)]
  simp only [Nat.add_zero, Nat.sub_zero, eq_self_iff_true, true_or, if_true]
  rw [hload]
  dsimp only
  have hc : (8 - start % 8) ⊓ (m + 1) = m + 1 := min_eq_right (by omega)
  have hne : (m + 1 : Nat) ≠ 8 := by omega
  have htake : List.take (m + 1) buf = buf := List.take_of_length_le (by omega)
  rw [hc, hrd, hwr]
  simp only [hne, ne_eq, not_false_eq_true, or_true, Bool.false_eq_true, and_false,
    if_false, if_true, List.drop_zero, htake, Nat.zero_add]
  rw [accessLoop_exit]
  omega

/-- Claim C3 (amended): a debug access call never returns a partial byte
count: whenever any chunk fails — first or later, missing table entry or
instruction failure — it returns -EIO, and otherwise it returns exactly the
requested length. -/
theorem sgx_virt_epc_access_no_partial (env : AccessEnv) (start len : Nat)
    (write : Bool) (buf : List Nat) (mem : Mem) :
    (sgx_virt_epc_access env start len write buf mem).ret = EIO_ERR ∨
    (sgx_virt_epc_access env start len write buf mem).ret = (len : Int) :=
  accessLoop_ret_cases env start len write len 0 0 0 buf mem (List.replicate 8 0)
    (Nat.zero_le _) (by omega)

/-- Counterexample for C3 as stated: reading 16 bytes where the first word
chunk succeeds and the second word's debug read fails returns -EIO — not
the 8 bytes successfully processed before the failing chunk — even though
the very first chunk did not fail. -/
theorem sgx_virt_epc_access_error_after_progress :
    (sgx_virt_epc_access ⟨0, 0, [(0, 1)], fun _ off => off == 8, fun _ _ => false⟩
        0 16 false (List.replicate 16 7) []).ret = EIO_ERR ∧
    (sgx_virt_epc_access ⟨0, 0, [(0, 1)], fun _ off => off == 8, fun _ _ => false⟩
        0 16 false (List.replicate 16 7) []).ret ≠ 8 := by
  refine ⟨by decide, by decide⟩

/-- Claim C7: a debug access whose index has no table entry fails with -EIO
leaving the caller's buffer and the EPC memory untouched; the access path
allocates no page and never modifies the table (the model's access function
has no allocation oracle and returns the table unchanged, as in the code). -/
theorem sgx_virt_epc_access_unpopulated_index_fails (env : AccessEnv)
    (start len : Nat) (write : Bool) (buf : List Nat) (mem : Mem)
    (hlen : 0 < len)
    (hmiss : xaLoad env.table
      (sgx_virt_epc_calc_index env.vm_pgoff env.vm_start start) = none) :
    sgx_virt_epc_access env start len write buf mem = ⟨EIO_ERR, buf, mem⟩ := by
  obtain ⟨m, rfl⟩ : ∃ m, len = m + 1 := ⟨len - 1, by omega⟩
  simp only [sgx_virt_epc_access, accessLoop, if_pos (Nat.succ_pos m)]
  simp only [Nat.add_zero, Nat.sub_zero, eq_self_iff_true, true_or, if_true]
  rw [hmiss]

/-- Witness for C7 at a concrete input: a 4-byte write into a region with
an empty table fails with -EIO and changes nothing. -/
theorem sgx_virt_epc_access_unpopulated_index_fails_witness :
    (0 : Nat) < 4 ∧
    xaLoad ([] : List (Nat × PageId)) (sgx_virt_epc_calc_index 0 0 0) = none ∧
    sgx_virt_epc_access ⟨0, 0, [], fun _ _ => false, fun _ _ => false⟩
        0 4 true [1, 2, 3, 4] [] = ⟨EIO_ERR, [1, 2, 3, 4], []⟩ :=
  ⟨by decide, rfl,
   sgx_virt_epc_access_unpopulated_index_fails
     ⟨0, 0, [], fun _ _ => false, fun _ _ => false⟩ 0 4 true [1, 2, 3, 4] []
     (by decide) rfl⟩

/-- Claim C6 (amended): a sub-word debug write of `len` bytes at byte
offset `start % 8` inside a naturally aligned word reads the whole word,
overlays exactly the bytes [offset, offset+len) with the buffer, writes the
word back, and every byte of the word outside that range keeps its prior
value.  (The claim's numeric example is off: on little-endian x86-64 the
1-byte write of 0xFF at offset 3 into an all-zero word yields
0x00000000FF000000, not 0x0000000000FF0000; see the counterexample.) -/
theorem sgx_virt_epc_access_subword_write_preserves (env : AccessEnv)
    (start len : Nat) (buf : List Nat) (mem : Mem) (pg : PageId) (j : Nat)
    (hlen : 0 < len) (hfit : start % 8 + len ≤ 8) (hsub : len < 8)
    (hload : xaLoad env.table
      (sgx_virt_epc_calc_index env.vm_pgoff env.vm_start start) = some pg)
    (hrd : env.rdFail pg ((start - start % 8) % PAGE_SIZE) = false)
    (hwr : env.wrFail pg ((start - start % 8) % PAGE_SIZE) = false)
    (hbuf : buf.length = len)
    (hw8 : (memRead mem (pg, (start - start % 8) % PAGE_SIZE)).length = 8)
    (hj : j < start % 8 ∨ start % 8 + len ≤ j) :
    memRead (sgx_virt_epc_access env start len true buf mem).mem
        (pg, (start - start % 8) % PAGE_SIZE) =
      overlayBytes (memRead mem (pg, (start - start % 8) % PAGE_SIZE))
        (start % 8) buf ∧
    (memRead (sgx_virt_epc_access env start len true buf mem).mem
        (pg, (start - start % 8) % PAGE_SIZE))[j]? =
      (memRead mem (pg, (start - start % 8) % PAGE_SIZE))[j]? := by
  rw [access_subword_write_eq env start len buf mem pg hlen hfit hsub hload hrd hwr hbuf]
  dsimp only
  rw [memRead_memWrite_self]
  refine ⟨rfl, ?_⟩
  apply overlayBytes_outside
  · rw [hw8, hbuf]
    exact hfit
  · rw [hbuf]
    exact hj

/-- Witness for C6 at a concrete input: a 1-byte write of 0xFF at offset 3
over the word [1,2,3,4,5,6,7,8] overlays byte 3 and leaves byte 0 intact. -/
theorem sgx_virt_epc_access_subword_write_preserves_witness :
    (0 : Nat) < 1 ∧ 3 % 8 + 1 ≤ 8 ∧
    ((0 : Nat) < 3 % 8 ∨ 3 % 8 + 1 ≤ 0) ∧
    (memRead [((1, 0), [1, 2, 3, 4, 5, 6, 7, 8])] (1, (3 - 3 % 8) % PAGE_SIZE)).length = 8 ∧
    memRead (sgx_virt_epc_access ⟨0, 0, [(0, 1)], fun _ _ => false, fun _ _ => false⟩
        3 1 true [255] [((1, 0), [1, 2, 3, 4, 5, 6, 7, 8])]).mem
        (1, (3 - 3 % 8) % PAGE_SIZE) =
      overlayBytes (memRead [((1, 0), [1, 2, 3, 4, 5, 6, 7, 8])] (1, (3 - 3 % 8) % PAGE_SIZE))
        (3 % 8) [255] ∧
    (memRead (sgx_virt_epc_access ⟨0, 0, [(0, 1)], fun _ _ => false, fun _ _ => false⟩
        3 1 true [255] [((1, 0), [1, 2, 3, 4, 5, 6, 7, 8])]).mem
        (1, (3 - 3 % 8) % PAGE_SIZE))[0]? =
      (memRead [((1, 0), [1, 2, 3, 4, 5, 6, 7, 8])] (1, (3 - 3 % 8) % PAGE_SIZE))[0]? :=
  ⟨by decide, by decide, by decide, by decide,
   (sgx_virt_epc_access_subword_write_preserves
      ⟨0, 0, [(0, 1)], fun _ _ => false, fun _ _ => false⟩ 3 1 [255]
      [((1, 0), [1, 2, 3, 4, 5, 6, 7, 8])] 1 0
      (by decide) (by decide) (by decide) rfl rfl rfl rfl rfl (by decide)).1,
   (sgx_virt_epc_access_subword_write_preserves
      ⟨0, 0, [(0, 1)], fun _ _ => false, fun _ _ => false⟩ 3 1 [255]
      [((1, 0), [1, 2, 3, 4, 5, 6, 7, 8])] 1 0
      (by decide) (by decide) (by decide) rfl rfl rfl rfl rfl (by decide)).2⟩

/-- Counterexample for C6's example as stated: on the little-endian x86-64
word layout the code's read-modify-write of one 0xFF byte at offset 3 into
an all-zero word produces the word value 0x00000000FF000000 (4278190080),
not 0x0000000000FF0000 (16711680) as the claim's example says. -/
theorem sgx_virt_epc_access_subword_write_example_value :
    wordToNat (memRead (sgx_virt_epc_access
        ⟨0, 0, [(0, 1)], fun _ _ => false, fun _ _ => false⟩ 3 1 true [255] []).mem
        (1, 0)) = 4278190080 ∧
    wordToNat (memRead (sgx_virt_epc_access
        ⟨0, 0, [(0, 1)], fun _ _ => false, fun _ _ => false⟩ 3 1 true [255] []).mem
        (1, 0)) ≠ 16711680 := by
  refine ⟨by decide, by decide⟩
